import Mathlib

/-!
Shallow embedding of the token-count estimator in `src/tool/token.c`.

The C code scans an 8-bit character string once, classifying runs of
characters, and produces a `TokenStats` record.  We model the input as a
`List Char` (the suffix of the text starting at the current scan
position), the C `ctype` classifiers as ASCII range tests (matching the
C locale, where bytes above 0x7e satisfy none of them), and counters as
`Nat` (they start at 0 and are only ever incremented).
-/

/-- C `isspace` in the default locale: space, tab, newline, vertical
tab, form feed, carriage return. -/
def isspace (c : Char) : Bool :=
  c = ' ' || c = '\t' || c = '\n' || c = '\x0b' || c = '\x0c' || c = '\r'

/-- C `isalpha` in the default locale: ASCII letters. -/
def isalpha (c : Char) : Bool :=
  ('A' ≤ c && c ≤ 'Z') || ('a' ≤ c && c ≤ 'z')

/-- C `isdigit`: ASCII decimal digits. -/
def isdigit (c : Char) : Bool :=
  '0' ≤ c && c ≤ '9'

/-- C `isalnum`: letter or digit. -/
def isalnum (c : Char) : Bool :=
  isalpha c || isdigit c

/-- C `ispunct` in the default locale: printable ASCII that is neither
alphanumeric nor the space character. -/
def ispunct (c : Char) : Bool :=
  '!' ≤ c && c ≤ '~' && !isalnum c

/-- C `is_separator` from token.c (defined there, unused by the
estimators). -/
def is_separator (c : Char) : Bool :=
  isspace c || ispunct c

/-- The fixed pattern table of `is_code_pattern`, in its exact declared
order (ASCII braces written with hex escapes). -/
def patterns : List (List Char) :=
  [ ['-', '>'], ['+', '+'], ['-', '-'], ['=', '='], ['!', '='],
    ['<', '='], ['>', '='], ['&', '&'], ['|', '|'],
    ['<', '<'], ['>', '>'], ['+', '='], ['-', '='], ['*', '='],
    ['/', '='], ['%', '='], ['^', '='], ['&', '='], ['|', '='],
    [':', ':'], ['/', '/'], ['/', '*'], ['*', '/'], ['/', '*', '*'],
    ['\x7b'], ['\x7d'], ['['], [']'], ['('], [')'], [';'] ]

/-- Does pattern `p` occur literally at the start of `s`?  This is the
`pos + pattern_len <= len && strncmp(str + pos, pat, pattern_len) == 0`
test of the C code, phrased on the suffix of the text that starts at
the scan position. -/
def matchesAt : List Char → List Char → Bool
  | [], _ => true
  | _ :: _, [] => false
  | p :: ps, c :: cs => p = c && matchesAt ps cs

/-- Scan a pattern list in order; return the length of the first entry
that matches at the start of `s`, or 0 if none does. -/
def firstPattern : List (List Char) → List Char → Nat
  | [], _ => 0
  | p :: ps, s => if matchesAt p s then p.length else firstPattern ps s

/-- C `is_code_pattern`: length of the first table entry matching at the
scan position (`s` is the suffix of the text starting there), 0 if
none. -/
def is_code_pattern (s : List Char) : Nat :=
  firstPattern patterns s

/-- Statistics record of the C code (`TokenStats`).  The C fields are
`int` counters starting at 0 and only incremented, so `Nat` models
them. -/
structure TokenStats where
  tokens : Nat
  words : Nat
  chars : Nat
deriving Repr, DecidableEq

/-- A word or digit-run character class used by the scanner. -/
def wordChar (c : Char) : Bool :=
  isalnum c || c = '_'

/-- Digit-run character class: digits and literal dots. -/
def numChar (c : Char) : Bool :=
  isdigit c || c = '.'

/-- The inner string-literal scan of `estimate_tokens`: starting just
past the opening quote `q`, walk forward until the matching quote or
the end of input.  A backslash with at least one following character
consumes both positions and adds 2 to the running string character
count; any other character (including a final backslash with nothing
after it, where the C bound check `i + 1 < len` fails) consumes one
position and adds 1.  Returns the string character count and the
remaining suffix (which starts with `q` if a closing quote was found,
and is empty otherwise). -/
def scanString (q : Char) : List Char → Nat × List Char
  | [] => (0, [])
  | c :: cs =>
    if c = q then (0, c :: cs)
    else if c = '\x5c' then
      match cs with
      | [] => (1, [])
      | _ :: rest =>
        let r := scanString q rest
        (r.1 + 2, r.2)
    else
      let r := scanString q cs
      (r.1 + 1, r.2)

/-- One iteration of the main `while (i < len)` loop of
`estimate_tokens`, acting on the remaining suffix of the text and the
statistics accumulated so far.  The branch order is exactly that of the
C code: whitespace run, pattern table, letter run, digit run, quoted
string, single punctuation. -/
def step : List Char → TokenStats → List Char × TokenStats
  | [], st => ([], st)
  | c :: cs, st =>
    if isspace c then
      ((c :: cs).dropWhile isspace, st)
    else if 0 < is_code_pattern (c :: cs) then
      ((c :: cs).drop (is_code_pattern (c :: cs)),
       { st with tokens := st.tokens + 1 })
    else if isalpha c then
      let wlen := ((c :: cs).takeWhile wordChar).length
      ((c :: cs).dropWhile wordChar,
       { st with
           words := st.words + 1,
           tokens := st.tokens +
             (if wlen ≤ 4 then 1 else if wlen ≤ 8 then 2
              else (wlen + 3) / 4) })
    else if isdigit c then
      ((c :: cs).dropWhile numChar,
       { st with tokens := st.tokens + 1 })
    else if c = '\x22' || c = '\x27' then
      let r := scanString c cs
      if r.2 = [] then
        ([], { st with tokens := st.tokens + 1 + (r.1 + 3) / 4 })
      else
        (r.2.tail,
         { st with tokens := st.tokens + 1 + (r.1 + 3) / 4 + 1 })
    else
      (cs, { st with tokens := st.tokens + 1 })

/-- The main loop, driven by fuel.  Every iteration of the C loop
consumes at least one character (proved below), so fuel equal to the
input length never runs out; the fueled form keeps the definition
structurally recursive and executable. -/
def scanLoop : Nat → List Char → TokenStats → TokenStats
  | 0, _, st => st
  | fuel + 1, s, st =>
    if s = [] then st
    else
      let p := step s st
      scanLoop fuel p.1 p.2

/-- C `estimate_tokens`: set `chars` to the input length, then run the
scan loop over the whole text. -/
def estimate_tokens (t : List Char) : TokenStats :=
  scanLoop t.length t { tokens := 0, words := 0, chars := t.length }

/-- The characters counted as code indicators by
`estimate_tokens_advanced`. -/
def isIndicatorChar (c : Char) : Bool :=
  c = '\x7b' || c = '\x7d' || c = ';' || c = '(' || c = ')' ||
  c = '[' || c = ']'

/-- The test applied at index `i` by the secondary scan of
`estimate_tokens_advanced`: an indicator character not immediately
preceded by an ASCII letter.  Both accesses are in bounds when
`i < length - 1`; the defaults are never used there. -/
def indicatorAt (t : List Char) (i : Nat) : Bool :=
  isIndicatorChar (t.getD i ' ') &&
  (i == 0 || !isalpha (t.getD (i - 1) ' '))

/-- The `code_indicators` counter of `estimate_tokens_advanced`: the
C `for (i = 0; i < text_len - 1; i++)` loop counts the indices
`0 .. length - 2` satisfying `indicatorAt` (for an empty text the C
bound `text_len - 1` is `-1` and the loop body never runs, matching
`Nat` truncated subtraction here). -/
def code_indicators (t : List Char) : Nat :=
  (List.range (t.length - 1)).countP (fun i => indicatorAt t i)

/-- The IEEE-754 single-precision value of the C literal `1.2f`,
namely 10066330 * 2 ^ (-23), as an exact rational. -/
def float12 : ℚ := 5033165 / 4194304

/-- The IEEE-754 single-precision value of the C literal `0.85f`,
namely 14260634 * 2 ^ (-24), as an exact rational. -/
def float085 : ℚ := 7130317 / 8388608

/-- The multiplier computed by `estimate_tokens_advanced`, with the
sequential-assignment structure of the C code: start at 1.0, overwrite
with 1.2 if the first condition holds, then overwrite with 0.85 if the
second condition holds.  The float constants are modelled by their
exact single-precision values. -/
def advancedMultiplier (t : List Char) : ℚ :=
  let basic := estimate_tokens t
  let ci := code_indicators t
  let m : ℚ := 1
  let m := if basic.words / 10 < ci then float12 else m
  let m := if ci < basic.words / 20 ∧ 10 < basic.words then float085 else m
  m

/-- Number of binary digits of `n` (0 for `n = 0`).  The first argument
is fuel that makes the recursion structural and kernel-computable; the
second argument at least halves each step, so fuel `n` is always enough
(see `bitlen`). -/
def bitlenAux : Nat → Nat → Nat
  | 0, _ => 0
  | fuel + 1, n => if n = 0 then 0 else bitlenAux fuel (n / 2) + 1

/-- Number of binary digits of `n`: `bitlen 0 = 0`, `bitlen 1 = 1`,
`bitlen (2 ^ 24) = 25`. -/
def bitlen (n : Nat) : Nat := bitlenAux n n

/-- Round a nonnegative integer to 24 binary digits of significand with
IEEE-754 round-to-nearest, ties-to-even.  Rounding a dyadic value
`n / 2 ^ k` to binary32 precision leaves the scale factor `2 ^ k`
unchanged and replaces `n` by `round24 n`, so this one function models
both the C int-to-float conversion of the token count (`k = 0`) and the
rounding performed by the single-precision multiplication.  The
binary32 exponent range is not modelled: it only saturates beyond
`2 ^ 128`, far outside the values a C `int` token count can produce, so
the two agree on the whole domain of the program. -/
def round24 (n : Nat) : Nat :=
  if n < 2 ^ 24 then n
  else
    let shift := bitlen n - 24
    let q := n / 2 ^ shift
    let r := n % 2 ^ shift
    let half := 2 ^ (shift - 1)
    let q2 :=
      if half < r then q + 1
      else if r < half then q
      else if q % 2 = 0 then q else q + 1
    q2 * 2 ^ shift

/-- The multiplier of `estimate_tokens_advanced` as the exact dyadic
pair (numerator, binary exponent) of the selected single-precision
constant: 1.0f is 1 / 2 ^ 0, 1.2f is 5033165 / 2 ^ 22, 0.85f is
14260634 / 2 ^ 24.  Same sequential-assignment structure as the C code;
`advancedMultiplier` carries the same values in ℚ (proved in
`advancedMultiplierDyadic_val`). -/
def advancedMultiplierDyadic (t : List Char) : Nat × Nat :=
  let basic := estimate_tokens t
  let ci := code_indicators t
  let m : Nat × Nat := (1, 0)
  let m := if basic.words / 10 < ci then (5033165, 22) else m
  let m := if ci < basic.words / 20 ∧ 10 < basic.words then (14260634, 24) else m
  m

/-- C `estimate_tokens_advanced`: convert the basic token count to
single precision (`round24`, the int-to-float conversion), multiply by
the selected single-precision multiplier — the exact product of two
24-bit significands fits in 48 bits, and the float multiplication
returns it rounded back to 24 bits, here `round24` again on the
numerator with the scale factor untouched — then truncate toward zero,
which on this nonnegative dyadic value is Nat division by the scale
factor. -/
def estimate_tokens_advanced (t : List Char) : Nat :=
  let basic := estimate_tokens t
  let m := advancedMultiplierDyadic t
  round24 (round24 basic.tokens * m.1) / 2 ^ m.2

/-- C `quick_token_estimate`: 0 for empty input, else one of two
characters-per-token rules selected by punctuation density. -/
def quick_token_estimate (t : List Char) : Nat :=
  let len := t.length
  if len = 0 then 0
  else
    let punct_count := t.countP (fun c => ispunct c)
    if len / 20 < punct_count then (len + 2) / 3
    else (len + 3) / 4

/-- Modelled from the spec (section 4.3): the quick estimator as the
spec words it — return 0 unconditionally for length 0; otherwise count
ASCII punctuation across the whole string and return `(length + 2) / 3`
when `punctCount > length / 20`, else `(length + 3) / 4`. -/
def quickSpec (t : List Char) : Nat :=
  if t.length = 0 then 0
  else if t.length / 20 < ((t.filter (fun c => ispunct c)).length)
  then (t.length + 2) / 3
  else (t.length + 3) / 4

/-- Modelled from the spec (section 4.2): the advanced estimator as the
spec words it — count indicator occurrences over positions
`0 .. length - 2`, select the multiplier by the first-match chain
`if c1 then 1.2 else if c2 then 0.85 else 1.0`, and compute
truncate-toward-zero of the floating-point multiplication of the basic
token count by the multiplier, with the single-precision constants and
round-to-nearest-even rounding modelled by the same dyadic pairs and
`round24` as the source side (shared float environment, like the shared
`ctype` classifiers). -/
def advancedSpec (t : List Char) : Nat :=
  let basic := estimate_tokens t
  let ci := ((List.range (t.length - 1)).filter
    (fun i => isIndicatorChar (t.getD i ' ') &&
      (i == 0 || !isalpha (t.getD (i - 1) ' ')))).length
  let m : Nat × Nat :=
    if basic.words / 10 < ci then (5033165, 22)
    else if ci < basic.words / 20 ∧ 10 < basic.words then (14260634, 24)
    else (1, 0)
  round24 (round24 basic.tokens * m.1) / 2 ^ m.2

/-! ### Helper lemmas -/

theorem scanString_len_le (q : Char) : ∀ s : List Char, ((scanString q s).2).length ≤ s.length
  | [] => by simp [scanString]
  | c :: cs => by
    rw [scanString.eq_def]
    dsimp only
    by_cases h1 : c = q
    · simp [h1]
    · rw [if_neg h1]
      by_cases h2 : c = '\x5c'
      · rw [if_pos h2]
        cases cs with
        | nil => simp
        | cons d rest =>
          have := scanString_len_le q rest
          simp only [List.length_cons]
          omega
      · rw [if_neg h2]
        have := scanString_len_le q cs
        simp only [List.length_cons]
        omega

theorem step_shrink (c : Char) (cs : List Char) (st : TokenStats) :
    ((step (c :: cs) st).1).length < (c :: cs).length := by
  by_cases h1 : isspace c = true
  · have hle : ((cs.dropWhile isspace).length) ≤ cs.length :=
      (List.dropWhile_sublist isspace).length_le
    simp [step, h1, List.dropWhile_cons_of_pos h1]
    omega
  · by_cases h2 : 0 < is_code_pattern (c :: cs)
    · simp [step, h1, h2, List.length_drop]
    · by_cases h3 : isalpha c = true
      · have hw : wordChar c = true := by simp [wordChar, isalnum, h3]
        have hle : ((cs.dropWhile wordChar).length) ≤ cs.length :=
          (List.dropWhile_sublist wordChar).length_le
        simp [step, h1, h2, h3, List.dropWhile_cons_of_pos hw]
        omega
      · by_cases h4 : isdigit c = true
        · have hn : numChar c = true := by simp [numChar, h4]
          have hle : ((cs.dropWhile numChar).length) ≤ cs.length :=
            (List.dropWhile_sublist numChar).length_le
          simp [step, h1, h2, h3, h4, List.dropWhile_cons_of_pos hn]
          omega
        · by_cases h5 : (c = '\x22' || c = '\x27') = true
          · by_cases h6 : (scanString c cs).2 = []
            · simp [step, h1, h2, h3, h4, h5, h6]
            · have hle := scanString_len_le c cs
              simp [step, h1, h2, h3, h4, h5, h6, List.length_tail]
              omega
          · simp [step, h1, h2, h3, h4, h5]

theorem step_stats (s : List Char) (st : TokenStats) :
    st.tokens ≤ ((step s st).2).tokens ∧ st.words ≤ ((step s st).2).words ∧
    ((step s st).2).chars = st.chars := by
  cases s with
  | nil => simp [step]
  | cons c cs =>
    by_cases h1 : isspace c = true
    · simp [step, h1]
    · by_cases h2 : 0 < is_code_pattern (c :: cs)
      · simp [step, h1, h2]
      · by_cases h3 : isalpha c = true
        · simp [step, h1, h2, h3]
        · by_cases h4 : isdigit c = true
          · simp [step, h1, h2, h3, h4]
          · by_cases h5 : (c = '\x22' || c = '\x27') = true
            · by_cases h6 : (scanString c cs).2 = []
              · simp [step, h1, h2, h3, h4, h5, h6]
                omega
              · simp [step, h1, h2, h3, h4, h5, h6]
                omega
            · simp [step, h1, h2, h3, h4, h5]

theorem scanLoop_nil (f : Nat) (st : TokenStats) : scanLoop f [] st = st := by
  cases f <;> simp [scanLoop]

theorem scanLoop_fuel :
    ∀ (f₁ f₂ : Nat) (s : List Char) (st : TokenStats),
      s.length ≤ f₁ → s.length ≤ f₂ → scanLoop f₁ s st = scanLoop f₂ s st
  | 0, f₂, s, st, h₁, _ => by
    have : s = [] := List.eq_nil_of_length_eq_zero (Nat.le_zero.mp h₁)
    subst this
    rw [scanLoop_nil, scanLoop_nil]
  | f + 1, f₂, s, st, h₁, h₂ => by
    cases s with
    | nil => rw [scanLoop_nil, scanLoop_nil]
    | cons c cs =>
      cases f₂ with
      | zero => simp at h₂
      | succ g₂ =>
        simp only [scanLoop, if_neg (List.cons_ne_nil c cs)]
        have hs := step_shrink c cs st
        have hl : (c :: cs).length = cs.length + 1 := rfl
        exact scanLoop_fuel f g₂ (step (c :: cs) st).1 (step (c :: cs) st).2
          (by simp only [List.length_cons] at h₁ hs; omega)
          (by simp only [List.length_cons] at h₂ hs; omega)

theorem scanLoop_chars :
    ∀ (f : Nat) (s : List Char) (st : TokenStats),
      (scanLoop f s st).chars = st.chars
  | 0, _, _ => rfl
  | f + 1, s, st => by
    by_cases h : s = []
    · simp [scanLoop, h]
    · simp only [scanLoop, if_neg h]
      rw [scanLoop_chars f _ _]
      exact (step_stats s st).2.2

theorem firstPattern_append :
    ∀ (ps : List (List Char)) (p : List Char) (qs : List (List Char))
      (s : List Char),
      (∀ q ∈ ps, matchesAt q s = false) → matchesAt p s = true →
      firstPattern (ps ++ p :: qs) s = p.length
  | [], p, qs, s, _, hp => by simp [firstPattern, hp]
  | q :: ps, p, qs, s, hq, hp => by
    have h0 : matchesAt q s = false := hq q (by simp)
    simp only [List.cons_append, firstPattern, h0]
    simp only [Bool.false_eq_true, if_false]
    exact firstPattern_append ps p qs s (fun r hr => hq r (by simp [hr])) hp

theorem mult_excl (ci w : Nat) : w / 10 < ci → ci < w / 20 → False := by
  omega

theorem advancedMultiplierDyadic_val (t : List Char) :
    (((advancedMultiplierDyadic t).1 : ℚ) /
      2 ^ (advancedMultiplierDyadic t).2) = advancedMultiplier t := by
  simp only [advancedMultiplierDyadic, advancedMultiplier]
  by_cases h1 : (estimate_tokens t).words / 10 < code_indicators t <;>
    by_cases h2 : code_indicators t < (estimate_tokens t).words / 20 ∧
        10 < (estimate_tokens t).words <;>
    simp [h1, h2, float12, float085] <;> norm_num

/-! ### Claim theorems -/

/-- C1: when the scan stands on an alphabetic character and neither the
whitespace rule nor the pattern table applies there, the basic
estimator consumes the maximal run of alphanumeric characters and
underscores, increments the word count by exactly 1, and adds tokens by
the size-banded rule (length at most 4 adds 1, length 5 to 8 adds 2,
longer adds (length + 3) / 4 with integer division); on the input
consisting of the five letters of hello this gives wordCount 1 and
tokenCount 2. -/
theorem claim_C1 :
    (∀ (c : Char) (cs : List Char) (st : TokenStats),
        isspace c = false → is_code_pattern (c :: cs) = 0 →
        isalpha c = true →
        step (c :: cs) st =
          ((c :: cs).dropWhile wordChar,
           { st with
               words := st.words + 1,
               tokens := st.tokens +
                 (if ((c :: cs).takeWhile wordChar).length ≤ 4 then 1
                  else if ((c :: cs).takeWhile wordChar).length ≤ 8 then 2
                  else (((c :: cs).takeWhile wordChar).length + 3) / 4) }))
    ∧ estimate_tokens ['h', 'e', 'l', 'l', 'o'] = ⟨2, 1, 5⟩ := by
  constructor
  · intro c cs st h1 h2 h3
    simp [step, h1, h2, h3]
  · decide

/-- Witness for C1 at the input hello with the scan at position 0. -/
theorem claim_C1_witness :
    isspace 'h' = false ∧ is_code_pattern ['h', 'e', 'l', 'l', 'o'] = 0 ∧
    isalpha 'h' = true ∧
    step ['h', 'e', 'l', 'l', 'o'] ⟨0, 0, 5⟩ = ([], ⟨2, 1, 5⟩) := by
  refine ⟨by decide, by decide, by decide, ?_⟩
  have h := (claim_C1.1 'h' ['e', 'l', 'l', 'o'] ⟨0, 0, 5⟩
    (by decide) (by decide) (by decide))
  exact h.trans (by decide)

/-- C2: the pattern table is tested in declared order and the first
entry whose text matches at the current position wins (not the longest
overall), counting one token and advancing by that entry's length; an
earlier shorter entry shadows a later longer one, as the two-character
slash-star entry does to the three-character slash-star-star entry. -/
theorem claim_C2 :
    (∀ (ps : List (List Char)) (p : List Char) (qs : List (List Char))
        (s : List Char),
        patterns = ps ++ p :: qs →
        (∀ q ∈ ps, matchesAt q s = false) →
        matchesAt p s = true →
        is_code_pattern s = p.length)
    ∧ (∀ (c : Char) (cs : List Char) (st : TokenStats),
        isspace c = false → 0 < is_code_pattern (c :: cs) →
        step (c :: cs) st =
          ((c :: cs).drop (is_code_pattern (c :: cs)),
           { st with tokens := st.tokens + 1 }))
    ∧ is_code_pattern ['/', '*', '*'] = 2
    ∧ matchesAt ['/', '*', '*'] ['/', '*', '*'] = true
    ∧ patterns.getD 21 [] = ['/', '*']
    ∧ patterns.getD 23 [] = ['/', '*', '*'] := by
  refine ⟨?_, ?_, by decide, by decide, by decide, by decide⟩
  · intro ps p qs s hpat hps hp
    simp only [is_code_pattern, hpat]
    exact firstPattern_append ps p qs s hps hp
  · intro c cs st h1 h2
    simp [step, h1, h2]

/-- Witness for C2: the slash-star entry (index 21) matches the input
slash-star-star while all 21 earlier entries fail, so the scan takes
its length 2, even though the slash-star-star entry (index 23) also
matches; and a matched single-character entry counts one token and
advances by its length. -/
theorem claim_C2_witness :
    (patterns = patterns.take 21 ++ ['/', '*'] :: patterns.drop 22) ∧
    (∀ q ∈ patterns.take 21, matchesAt q ['/', '*', '*'] = false) ∧
    matchesAt ['/', '*'] ['/', '*', '*'] = true ∧
    is_code_pattern ['/', '*', '*'] = (['/', '*'] : List Char).length ∧
    isspace '(' = false ∧ 0 < is_code_pattern ['('] ∧
    step ['('] ⟨0, 0, 1⟩ = ([], ⟨1, 0, 1⟩) := by
  refine ⟨by decide, by decide, by decide,
    claim_C2.1 (patterns.take 21) ['/', '*'] (patterns.drop 22)
      ['/', '*', '*'] (by decide) (by decide) (by decide),
    by decide, by decide, ?_⟩
  have h := claim_C2.2.1 '(' [] ⟨0, 0, 1⟩ (by decide) (by decide)
  exact h.trans (by decide)

/-- C3: on reaching a double or single quote not consumed by an earlier
rule, the basic estimator counts 1 token for the opening quote, scans
to the matching quote or end of input (a backslash with a following
character consumes both positions and contributes 2 to the string
character count, any other character consumes one position and
contributes 1), adds (stringCharCount + 3) / 4 tokens for the content,
and adds 1 more token exactly when a closing quote was found before end
of input. -/
theorem claim_C3 :
    (∀ (q : Char) (cs : List Char) (st : TokenStats),
        (q = '\x22' ∨ q = '\x27') → is_code_pattern (q :: cs) = 0 →
        step (q :: cs) st =
          (((scanString q cs).2).tail,
           { st with
               tokens := st.tokens + 1 + ((scanString q cs).1 + 3) / 4 +
                 (if (scanString q cs).2 = [] then 0 else 1) }))
    ∧ (∀ q : Char, scanString q [] = (0, []))
    ∧ (∀ (q : Char) (rest : List Char),
        scanString q (q :: rest) = (0, q :: rest))
    ∧ (∀ (q c : Char) (rest : List Char), (q = '\x22' ∨ q = '\x27') →
        scanString q ('\x5c' :: c :: rest) =
          ((scanString q rest).1 + 2, (scanString q rest).2))
    ∧ (∀ (q c : Char) (rest : List Char), ¬c = q → ¬c = '\x5c' →
        scanString q (c :: rest) =
          ((scanString q rest).1 + 1, (scanString q rest).2))
    ∧ estimate_tokens ['\x22', 'a', 'b', '\x22'] = ⟨3, 0, 4⟩
    ∧ estimate_tokens ['\x22', 'a', 'b', 'c'] = ⟨2, 0, 4⟩ := by
  refine ⟨?_, ?_, ?_, ?_, ?_, by decide, by decide⟩
  · intro q cs st hq h0
    have e1 : isspace q = false := by rcases hq with rfl | rfl <;> decide
    have e3 : isalpha q = false := by rcases hq with rfl | rfl <;> decide
    have e4 : isdigit q = false := by rcases hq with rfl | rfl <;> decide
    have e5 : (q = '\x22' || q = '\x27') = true := by
      rcases hq with rfl | rfl <;> decide
    by_cases h6 : (scanString q cs).2 = []
    · simp [step, e1, e3, e4, e5, h0, h6]
    · simp [step, e1, e3, e4, e5, h0, h6]
  · intro q
    rfl
  · intro q rest
    rw [scanString.eq_def]
    dsimp only
    rw [if_pos rfl]
  · intro q c rest hq
    have hbs : ¬(('\x5c' : Char) = q) := by rcases hq with rfl | rfl <;> decide
    rw [scanString.eq_def]
    dsimp only
    rw [if_neg hbs, if_pos rfl]
  · intro q c rest hcq hcb
    rw [scanString.eq_def]
    dsimp only
    rw [if_neg hcq, if_neg hcb]

/-- Witness for C3 at a quoted two-character string. -/
theorem claim_C3_witness :
    (('\x22' : Char) = '\x22' ∨ ('\x22' : Char) = '\x27') ∧
    is_code_pattern ['\x22', 'a', 'b', '\x22'] = 0 ∧
    step ['\x22', 'a', 'b', '\x22'] ⟨0, 0, 4⟩ = (['a', 'b', '\x22'].tail.tail.tail, ⟨3, 0, 4⟩) := by
  refine ⟨Or.inl rfl, by decide, ?_⟩
  have h := claim_C3.1 '\x22' ['a', 'b', '\x22'] ⟨0, 0, 4⟩
    (Or.inl rfl) (by decide)
  exact h.trans (by decide)

/-- C4: the advanced estimator returns truncate-toward-zero of the
floating-point product of the basic token count (converted to single
precision) and the multiplier, where codeIndicators counts occurrences
of an indicator character not immediately preceded by a letter over
positions 0 through length - 2 only, and the multiplier is selected by
ordered assignment — 1.2 if codeIndicators exceeds wordCount / 10, then
overwritten by 0.85 if codeIndicators is below wordCount / 20 with
wordCount above 10, else 1.0 — equal to the spec-worded first-match
formulation; the dyadic multiplier pair carries exactly the rational
value of the selected single-precision constant; and the float rounding
is live in the model: converting the int 2 ^ 24 + 1 rounds it to
2 ^ 24, and the product for 1747629 tokens at 1.2f truncates to
2097155, one above the exact-rational truncation 2097154. -/
theorem claim_C4 :
    (∀ t : List Char, estimate_tokens_advanced t = advancedSpec t)
    ∧ (∀ t : List Char,
        (((advancedMultiplierDyadic t).1 : ℚ) /
          2 ^ (advancedMultiplierDyadic t).2) = advancedMultiplier t)
    ∧ round24 (2 ^ 24 + 1) = 2 ^ 24
    ∧ round24 (round24 1747629 * 5033165) / 2 ^ 22 = 2097155
    ∧ (1747629 * 5033165) / 2 ^ 22 = 2097154
    ∧ estimate_tokens_advanced ['(', ')', ';'] = 3 := by
  refine ⟨?_, advancedMultiplierDyadic_val, by decide, by decide,
    by decide, by decide⟩
  intro t
  have hci : ((List.range (t.length - 1)).filter
      (fun i => isIndicatorChar (t.getD i ' ') &&
        (i == 0 || !isalpha (t.getD (i - 1) ' ')))).length
      = code_indicators t := by
    simp [code_indicators, indicatorAt, List.countP_eq_length_filter]
  simp only [estimate_tokens_advanced, advancedSpec,
    advancedMultiplierDyadic, hci]
  by_cases h1 : (estimate_tokens t).words / 10 < code_indicators t
  · by_cases h2 : code_indicators t < (estimate_tokens t).words / 20 ∧
        10 < (estimate_tokens t).words
    · exact (mult_excl _ _ h1 h2.1).elim
    · simp [h1, h2]
  · by_cases h2 : code_indicators t < (estimate_tokens t).words / 20 ∧
        10 < (estimate_tokens t).words
    · simp [h1, h2]
    · simp [h1, h2]

/-- C5: the quick estimator returns 0 for empty input (before any
punctuation scan) and otherwise (length + 2) / 3 when the punctuation
count exceeds length / 20 and (length + 3) / 4 otherwise; a
100-character input with 10 punctuation marks yields 34. -/
theorem claim_C5 :
    (∀ t : List Char, quick_token_estimate t = quickSpec t) ∧
    quick_token_estimate
      (List.replicate 90 'a' ++ List.replicate 10 '.') = 34 := by
  constructor
  · intro t
    simp [quick_token_estimate, quickSpec, List.countP_eq_length_filter]
  · decide

/-- C6: the stats returned by the basic estimator have charCount equal
to the exact input length, tokenCount and wordCount are nonnegative,
and no iteration of the scan ever decreases tokenCount or wordCount
(or changes charCount). -/
theorem claim_C6 :
    (∀ t : List Char, (estimate_tokens t).chars = t.length) ∧
    (∀ t : List Char,
      0 ≤ (estimate_tokens t).tokens ∧ 0 ≤ (estimate_tokens t).words) ∧
    (∀ (s : List Char) (st : TokenStats),
      st.tokens ≤ ((step s st).2).tokens ∧
      st.words ≤ ((step s st).2).words ∧
      ((step s st).2).chars = st.chars) := by
  refine ⟨?_, fun t => ⟨Nat.zero_le _, Nat.zero_le _⟩, step_stats⟩
  intro t
  simp only [estimate_tokens]
  rw [scanLoop_chars]

/-- C7: on the empty input the basic estimator returns all-zero stats,
the quick estimator returns 0, and the advanced estimator returns 0. -/
theorem claim_C7 :
    estimate_tokens [] = ⟨0, 0, 0⟩ ∧ quick_token_estimate [] = 0 ∧
    estimate_tokens_advanced [] = 0 := by
  exact ⟨rfl, rfl, by decide⟩

/-- C8: every iteration of the basic estimator's loop strictly shrinks
the remaining suffix, so the scan is bounded by the input length: any
fuel at least the remaining length yields the same result as fuel
exactly the remaining length, and all estimators are total Lean
functions. -/
theorem claim_C8 :
    (∀ (c : Char) (cs : List Char) (st : TokenStats),
        ((step (c :: cs) st).1).length < (c :: cs).length) ∧
    (∀ (f : Nat) (s : List Char) (st : TokenStats),
        s.length ≤ f → scanLoop f s st = scanLoop s.length s st) :=
  ⟨step_shrink, fun f s st h => scanLoop_fuel f s.length s st h (le_refl _)⟩

/-- Witness for C8 at a one-character input with surplus fuel. -/
theorem claim_C8_witness :
    ((step ['a'] ⟨0, 0, 1⟩).1).length < ([('a' : Char)] : List Char).length ∧
    (([('a' : Char)] : List Char).length ≤ 5 ∧
      scanLoop 5 ['a'] ⟨0, 0, 1⟩ =
        scanLoop ([('a' : Char)] : List Char).length ['a'] ⟨0, 0, 1⟩) :=
  ⟨claim_C8.1 'a' [] ⟨0, 0, 1⟩, by decide,
    claim_C8.2 5 ['a'] ⟨0, 0, 1⟩ (by decide)⟩

/-- C9: the two multiplier conditions of the advanced estimator can
never hold together (wordCount / 20 never exceeds wordCount / 10 under
integer division), so the sequential overwrite is unreachable and the
multiplier is exactly the one picked by the first-match chain. -/
theorem claim_C9 :
    ∀ t : List Char,
      ((((estimate_tokens t).words / 10 < code_indicators t) ∧
        (code_indicators t < (estimate_tokens t).words / 20 ∧
          10 < (estimate_tokens t).words)) = False) ∧
      advancedMultiplier t =
        (if (estimate_tokens t).words / 10 < code_indicators t then float12
         else if code_indicators t < (estimate_tokens t).words / 20 ∧
             10 < (estimate_tokens t).words then float085
         else 1) := by
  intro t
  constructor
  · exact eq_false (fun h => mult_excl _ _ h.1 h.2.1)
  · simp only [advancedMultiplier]
    by_cases h1 : (estimate_tokens t).words / 10 < code_indicators t
    · by_cases h2 : code_indicators t < (estimate_tokens t).words / 20 ∧
          10 < (estimate_tokens t).words
      · exact (mult_excl _ _ h1 h2.1).elim
      · simp [h1, h2]
    · by_cases h2 : code_indicators t < (estimate_tokens t).words / 20 ∧
          10 < (estimate_tokens t).words
      · simp [h1, h2]
      · simp [h1, h2]

/-- C10: a backslash that is the last character of the input while the
string-content scan is running is consumed as one ordinary character
contributing 1 (not 2) to the string character count, the scan ends
with the quote unterminated, and the scan never leaves the input: the
remaining suffix is never longer than the one scanned. -/
theorem claim_C10 :
    (∀ q : Char, q = '\x22' ∨ q = '\x27' → scanString q ['\x5c'] = (1, [])) ∧
    (∀ (q : Char) (s : List Char), ((scanString q s).2).length ≤ s.length) ∧
    estimate_tokens ['\x22', '\x5c'] = ⟨2, 0, 2⟩ := by
  refine ⟨?_, scanString_len_le, by decide⟩
  intro q hq
  rcases hq with rfl | rfl <;> decide

/-- Witness for C10 with a double quote. -/
theorem claim_C10_witness :
    (('\x22' : Char) = '\x22' ∨ ('\x22' : Char) = '\x27') ∧
    scanString '\x22' ['\x5c'] = (1, []) :=
  ⟨Or.inl rfl, claim_C10.1 '\x22' (Or.inl rfl)⟩
